import Mathlib

/-!
Verification of the ssh-scp client core against its specification.

The parsing and quoting helpers (`shellQuote`, `splitLines`, `splitFields`,
`parsePerm`, `parseLSLine`, `parseLS`, `parseAlgorithms`) and `Client.Close`
are embedded from the specification text, since only their unit tests ship in
the repository snapshot; the terminal model (`AppendOutput`, `StartSession`,
`Write`) and the password dialog are embedded directly from
`internal/ui/terminal.go` and the UI dialog source. Strings are modelled as
`List Char` (Lean `String.data`) so that every function is structurally
recursive and computable.
-/

namespace SshScp

/-- Modelled from the spec (§4.1 ShellQuoting; implementation absent from the
snapshot, pinned by its unit tests): the replacement applied to each input
character — a literal single quote becomes the four-character sequence
close-quote, backslash, single-quote, open-quote; anything else is kept. -/
def escQuote (c : Char) : List Char :=
  if c = '\'' then ['\'', '\\', '\'', '\''] else [c]

/-- Modelled from the spec (§4.1 ShellQuoting; implementation absent from the
snapshot, pinned by its unit tests): wrap the input in single quotes and
replace every interior single quote by the sequence given by `escQuote`. -/
def shellQuote (s : List Char) : List Char :=
  '\'' :: (s.flatMap escQuote ++ ['\''])

/-- A POSIX shell single-word reader: `inQ` says whether we are inside a
single-quoted region. Outside quotes a backslash escapes the next character
and a single quote opens a quoted region; inside quotes every character other
than the closing single quote is literal. Returns `none` for an unterminated
quote or a trailing backslash. -/
def posixRead (inQ : Bool) : List Char → Option (List Char)
  | [] => if inQ then none else some []
  | c :: rest =>
    if inQ then
      if c = '\'' then posixRead false rest
      else (posixRead true rest).map (fun t => c :: t)
    else
      if c = '\'' then posixRead true rest
      else if c = '\\' then
        match rest with
        | [] => none
        | d :: rest2 => (posixRead false rest2).map (fun t => d :: t)
      else (posixRead false rest).map (fun t => c :: t)

/-- Interpret a string under POSIX shell single-word quoting rules. -/
def posixUnquote (s : List Char) : Option (List Char) :=
  posixRead false s

/-- A field separator for listing lines: space or tab (spec §4.7 rule 2:
runs of spaces/tabs are a single separator). -/
def isFieldSep (c : Char) : Bool :=
  c = ' ' || c = '\t'

def splitFieldsAux : List Char → List Char → List String
  | [], acc => if acc.isEmpty then [] else [⟨acc.reverse⟩]
  | c :: rest, acc =>
    if isFieldSep c then
      if acc.isEmpty then splitFieldsAux rest []
      else (⟨acc.reverse⟩ : String) :: splitFieldsAux rest []
    else splitFieldsAux rest (c :: acc)

/-- Modelled from the spec (§4.7 rule 2; implementation absent from the
snapshot, pinned by its unit tests): split a line into whitespace-delimited
fields, treating runs of spaces/tabs as one separator and ignoring
leading/trailing whitespace. -/
def splitFields (line : List Char) : List String :=
  splitFieldsAux line []

def splitLinesAux : List Char → List Char → List (List Char)
  | [], acc => if acc.isEmpty then [] else [acc.reverse]
  | c :: rest, acc =>
    if c = '\n' then
      if acc.isEmpty then splitLinesAux rest []
      else acc.reverse :: splitLinesAux rest []
    else splitLinesAux rest (c :: acc)

/-- Modelled from the spec (§4.7; implementation absent from the snapshot,
pinned by its unit tests): split listing text into lines on the newline
character, discarding empty lines — the tests require that the empty text
yields no lines and that a trailing newline adds no line; empty lines are
unobservable downstream since they parse to nothing. -/
def splitLines (text : List Char) : List (List Char) :=
  splitLinesAux text []

/-- One permission character: contributes `v` only when it is exactly the
expected character, 0 otherwise (spec §4.7 rule 3). -/
def permBit (c expected : Char) (v : Nat) : Nat :=
  if c = expected then v else 0

/-- One rwx group of a permission string (spec §4.7 rule 3). -/
def permGroup (a b c : Char) : Nat :=
  permBit a 'r' 4 + permBit b 'w' 2 + permBit c 'x' 1

/-- Modelled from the spec (§4.7 rule 3; implementation absent from the
snapshot, pinned by its unit tests): positions 1–9 of a ten-character
permission string form three groups of three composing an octal mode 0–0777;
a string shorter than ten characters yields 0. -/
def parsePerm (p : List Char) : Nat :=
  if p.length < 10 then 0
  else
    permGroup (p.getD 1 ' ') (p.getD 2 ' ') (p.getD 3 ' ') * 64 +
    permGroup (p.getD 4 ' ') (p.getD 5 ' ') (p.getD 6 ' ') * 8 +
    permGroup (p.getD 7 ' ') (p.getD 8 ' ') (p.getD 9 ' ')

def parseNatAux : List Char → Nat → Option Nat
  | [], acc => some acc
  | c :: rest, acc =>
    if c.isDigit then parseNatAux rest (acc * 10 + (c.toNat - '0'.toNat))
    else none

/-- Modelled from the spec (§4.7 rule 4): parse a field as a non-negative
decimal integer; any parse failure (empty field or a non-digit character)
yields 0. -/
def parseSize (s : String) : Nat :=
  match s.data with
  | [] => 0
  | l => (parseNatAux l 0).getD 0

/-- The structured listing entry (spec §3): name, size (0 if unknown),
permission mode 0–0777 (0 if unparseable), directory flag. -/
structure RemoteFile where
  Name : String
  Size : Nat
  Mode : Nat
  IsDir : Bool
deriving DecidableEq

/-- Modelled from the spec (§4.7 rules 2–4; implementation absent from the
snapshot, pinned by its unit tests): parse one listing line. Fewer than five
fields is unparseable (`none`); otherwise the name is the final field, the
size comes from field index 4 only when at least eight fields are present,
the mode from the first field, and the directory flag from its first
character. -/
def parseLSLine (line : List Char) : Option RemoteFile :=
  let fields := splitFields line
  if fields.length < 5 then none
  else
    some
      { Name := fields.getLastD ""
        Size := if 8 ≤ fields.length then parseSize (fields.getD 4 "") else 0
        Mode := parsePerm (fields.headD "").data
        IsDir := ((fields.headD "").data.headD ' ') = 'd' }

/-- The per-line retention rule of `parseLS` (spec §4.7 rules 1 and 5): a
line whose first token is the literal "total" is skipped, an unparseable
line is skipped, and a parsed entry named "." or ".." is dropped. -/
def lineEntry (line : List Char) : Option RemoteFile :=
  if (splitFields line).headD "" = "total" then none
  else
    match parseLSLine line with
    | none => none
    | some f => if f.Name = "." ∨ f.Name = ".." then none else some f

/-- Modelled from the spec (§4.7; implementation absent from the snapshot,
pinned by its unit tests): parse listing text line by line in input order,
retaining entries according to `lineEntry`. -/
def parseLS (text : List Char) : List RemoteFile :=
  (splitLines text).filterMap lineEntry

/-- The listing text of the repository's `TestParseLSBasic` unit test. -/
def basicListing : String :=
  "total 16\ndrwxr-xr-x 2 user user 4096 2024-01-15 10:00:00 .\ndrwxr-xr-x 3 user user 4096 2024-01-15 10:00:00 ..\n-rw-r--r-- 1 user user 1024 2024-01-15 10:00:00 file1.txt\n-rw-r--r-- 1 user user 2048 2024-01-15 10:00:00 file2.txt\ndrwxr-xr-x 2 user user 4096 2024-01-15 10:00:00 subdir\n"

/-- The listing text of the repository's `TestParseLSSkipsDotEntries` unit
test. -/
def dotListing : String :=
  "drwxr-xr-x 2 u g 4096 2024-01-15 10:00:00 .\ndrwxr-xr-x 2 u g 4096 2024-01-15 10:00:00 ..\n"

/-- Whitespace stripped around algorithm names (spec §4.2). -/
def isWS (c : Char) : Bool :=
  c = ' ' || c = '\t'

/-- Strip surrounding whitespace from one comma-separated entry. -/
def trimChars (l : List Char) : List Char :=
  ((l.dropWhile isWS).reverse.dropWhile isWS).reverse

/-- Split on commas, keeping empty entries (they are dropped after
trimming). -/
def splitComma : List Char → List (List Char)
  | [] => [[]]
  | c :: rest =>
    let r := splitComma rest
    if c = ',' then [] :: r
    else (c :: r.headI) :: r.tail

/-- Modelled from the spec (§4.2; implementation absent from the snapshot,
pinned by its unit tests): split a preference string on commas, trim
surrounding whitespace from each entry, and drop empty entries, preserving
duplicates and order. -/
def parseAlgList (s : List Char) : List String :=
  (((splitComma s).map trimChars).filter (fun l => !l.isEmpty)).map
    (fun l => (⟨l⟩ : String))

/-- Modelled from the spec (§4.2; implementation absent from the snapshot):
the fixed built-in default algorithm list. The spec pins only that it is a
fixed ordered sequence whose first element is the modern default key type
ssh-ed25519 (the unit tests check exactly that). -/
def defaultAlgorithms : List String :=
  ["ssh-ed25519", "ecdsa-sha2-nistp256", "ecdsa-sha2-nistp384",
   "ecdsa-sha2-nistp521", "rsa-sha2-512", "rsa-sha2-256"]

/-- Modelled from the spec (§4.2; implementation absent from the snapshot,
pinned by its unit tests): the empty string yields no preference; a leading
plus sign yields the built-in defaults followed by the remaining names;
otherwise the comma-separated names themselves. -/
def parseAlgorithms (s : List Char) : List String :=
  match s with
  | [] => []
  | c :: rest =>
    if c = '+' then defaultAlgorithms ++ parseAlgList rest
    else parseAlgList (c :: rest)

/-- Embedded from `TerminalModel.AppendOutput` (internal/ui/terminal.go):
append `data` to the buffer; if the result exceeds 100 KiB, keep only the
most recent 50 KiB. Bytes are modelled as `Nat`. -/
def AppendOutput (buf data : List Nat) : List Nat :=
  if 100 * 1024 < (buf ++ data).length then
    (buf ++ data).drop ((buf ++ data).length - 50 * 1024)
  else buf ++ data

/-- The buffer contents after a sequence of `AppendOutput` calls starting
from the empty buffer of a fresh `TerminalModel`. -/
def runAppendOutput (calls : List (List Nat)) : List Nat :=
  calls.foldl AppendOutput []

/-- The injected outcomes of the three effectful setup steps of
`TerminalModel.StartSession` (internal/ui/terminal.go): opening a session
(`client.NewSession`), creating the stdin pipe (`session.StdinPipe`), and
starting the terminal (`client.StartTerminal`). Sessions and pipes are
identified by `Nat` handles; `Except`/`Option` carry the error strings. -/
structure StartEnv where
  newSession : Except String Nat
  stdinPipe : Except String Nat
  startTerminal : Option String

/-- Observable outcome of `StartSession`: the returned error (`none` on
success), the session and stdin-pipe fields of the model, whether the opened
session was closed during setup, and whether output forwarding and the
exit-waiter were started (the Active state of the spec's §4.6 machine). -/
structure StartResult where
  err : Option String
  sessionField : Option Nat
  stdinField : Option Nat
  sessionClosed : Bool
  forwarding : Bool
deriving DecidableEq

/-- Embedded from `TerminalModel.StartSession` (internal/ui/terminal.go,
lines 59–93): open a session; on stdin-pipe failure close the session and
return the error; on terminal-start failure close the session and return the
error; on success leave the session open with stdin wired and forwarding
started. No step is retried. -/
def StartSession (env : StartEnv) : StartResult :=
  match env.newSession with
  | .error e => ⟨some e, none, none, false, false⟩
  | .ok s =>
    match env.stdinPipe with
    | .error e => ⟨some e, some s, none, true, false⟩
    | .ok p =>
      match env.startTerminal with
      | some e => ⟨some e, some s, some p, true, false⟩
      | none => ⟨none, some s, some p, false, true⟩

/-- Embedded from `TerminalModel.Write` (internal/ui/terminal.go, lines
96–102): with no stdin pipe the write is a no-op returning no error;
otherwise the data is written to the pipe and the pipe's error is returned.
The second component records the writes issued to the pipe. -/
def Write (stdin : Option Nat) (writeErr : Option String) (data : List Nat) :
    Option String × List (Nat × List Nat) :=
  match stdin with
  | none => (none, [])
  | some p => (writeErr, [(p, data)])

/-- Embedded from `PasswordDialogModel` (UI dialog source): prompt text,
current text-input value, and visibility. -/
structure PasswordDialogModel where
  prompt : String
  inputValue : String
  visible : Bool
deriving DecidableEq

/-- Embedded from the UI dialog source: the message emitted when the user
submits or cancels the dialog. -/
structure PasswordResponseMsg where
  Password : String
  Cancelled : Bool
deriving DecidableEq

/-- Key events relevant to the dialog: Enter, Esc, typed runes, anything
else. -/
inductive KeyMsg where
  | enter
  | esc
  | runes (s : String)
  | other
deriving DecidableEq

/-- Embedded from `NewPasswordDialogModel`: a fresh dialog is hidden with an
empty input. -/
def NewPasswordDialogModel : PasswordDialogModel :=
  ⟨"", "", false⟩

/-- Embedded from `PasswordDialogModel.Show`: set the prompt, clear the
input, and make the dialog visible. -/
def dialogShow (_m : PasswordDialogModel) (prompt : String) : PasswordDialogModel :=
  ⟨prompt, "", true⟩

/-- Embedded from `PasswordDialogModel.Update`: Enter hides the dialog and
emits one `PasswordResponseMsg` carrying the typed text with `Cancelled`
false; Esc hides the dialog and emits one cancelled response. Other key
events go to the text input, modelled as appending typed runes at the end
(the cursor of a freshly shown dialog stays at the end). The `Option` result
is the single command returned by Update: `some` is exactly one emitted
message. -/
def dialogUpdate (m : PasswordDialogModel) (k : KeyMsg) :
    PasswordDialogModel × Option PasswordResponseMsg :=
  match k with
  | .enter => (⟨m.prompt, m.inputValue, false⟩, some ⟨m.inputValue, false⟩)
  | .esc => (⟨m.prompt, m.inputValue, false⟩, some ⟨"", true⟩)
  | .runes s => (⟨m.prompt, m.inputValue ++ s, m.visible⟩, none)
  | .other => (m, none)

/-- The two connections a `Client` may own (spec §4.5). -/
inductive CloseTarget where
  | direct
  | relay
deriving DecidableEq

/-- Modelled from the spec (§4.5 and §7; implementation absent from the
snapshot): `Close` closes the direct connection and, when a relay connection
is owned, the relay connection too, always attempting both and collecting
every failure. `directErr` is the direct close outcome (`none` = success);
`jump` is `none` when no relay is owned, `some r` when one is owned with
close outcome `r`. Returns the close attempts in order and the collected
failure messages; the combined error is absent exactly when no failure was
collected. -/
def clientClose (directErr : Option String) (jump : Option (Option String)) :
    List CloseTarget × List String :=
  (CloseTarget.direct ::
     (match jump with | none => [] | some _ => [CloseTarget.relay]),
   directErr.toList ++ (match jump with | none => [] | some r => r.toList))

lemma posixRead_false_nil : posixRead false [] = some [] := by
  rw [posixRead.eq_def]; simp

lemma posixRead_true_quote (t : List Char) :
    posixRead true ('\'' :: t) = posixRead false t := by
  rw [posixRead.eq_def]; simp

lemma posixRead_true_other (c : Char) (t : List Char) (hc : c ≠ '\'') :
    posixRead true (c :: t) = (posixRead true t).map (fun r => c :: r) := by
  rw [posixRead.eq_def]; simp [hc]

lemma posixRead_false_quote (t : List Char) :
    posixRead false ('\'' :: t) = posixRead true t := by
  rw [posixRead.eq_def]; simp

lemma posixRead_false_backslash (d : Char) (t : List Char) :
    posixRead false ('\\' :: d :: t) = (posixRead false t).map (fun r => d :: r) := by
  rw [posixRead.eq_def]; simp

lemma posixRead_quoted_append (s t : List Char) :
    posixRead true (s.flatMap escQuote ++ '\'' :: t) =
      (posixRead false t).map (fun r => s ++ r) := by
  induction s with
  | nil =>
    cases h : posixRead false t <;>
      simp [posixRead_true_quote, h]
  | cons c s ih =>
    by_cases hc : c = '\''
    · subst hc
      cases h : posixRead false t <;>
        simp [escQuote, posixRead_true_quote, posixRead_false_backslash,
          posixRead_false_quote, ih, h, Option.map_map, Function.comp]
    · cases h : posixRead false t <;>
        simp [escQuote, hc, posixRead_true_other _ _ hc, ih, h,
          Option.map_map, Function.comp]

lemma posixUnquote_shellQuote (s : List Char) :
    posixUnquote (shellQuote s) = some s := by
  have h := posixRead_quoted_append s []
  simp [posixRead_false_nil] at h
  simpa [posixUnquote, shellQuote, posixRead_false_quote] using h

lemma permBit_le (c expected : Char) (v : Nat) : permBit c expected v ≤ v := by
  unfold permBit; split <;> omega

lemma permGroup_le (a b c : Char) : permGroup a b c ≤ 7 := by
  have h1 := permBit_le a 'r' 4
  have h2 := permBit_le b 'w' 2
  have h3 := permBit_le c 'x' 1
  unfold permGroup; omega

lemma parsePerm_le (p : List Char) : parsePerm p ≤ 511 := by
  unfold parsePerm
  split
  · omega
  · have h1 := permGroup_le (p.getD 1 ' ') (p.getD 2 ' ') (p.getD 3 ' ')
    have h2 := permGroup_le (p.getD 4 ' ') (p.getD 5 ' ') (p.getD 6 ' ')
    have h3 := permGroup_le (p.getD 7 ' ') (p.getD 8 ' ') (p.getD 9 ' ')
    omega

lemma parsePerm_short (p : List Char) (h : p.length < 10) : parsePerm p = 0 := by
  unfold parsePerm; simp [h]

lemma parseLSLine_short (line : List Char) (h : (splitFields line).length < 5) :
    parseLSLine line = none := by
  simp [parseLSLine, h]

lemma parseLSLine_some (line : List Char) (f : RemoteFile)
    (h : parseLSLine line = some f) :
    f.Name = (splitFields line).getLastD "" ∧
    5 ≤ (splitFields line).length ∧
    f.Size = (if 8 ≤ (splitFields line).length
              then parseSize ((splitFields line).getD 4 "") else 0) := by
  by_cases hl : (splitFields line).length < 5
  · rw [parseLSLine_short line hl] at h
    exact absurd h (by simp)
  · simp only [parseLSLine, hl, if_false] at h
    obtain rfl := (Option.some_inj.mp h).symm
    refine ⟨rfl, by omega, rfl⟩

lemma filterMap_sublist_of_forall {α β : Type} (l : List α) (f g : α → Option β)
    (h : ∀ x, f x = none ∨ f x = g x) :
    (l.filterMap f).Sublist (l.filterMap g) := by
  induction l with
  | nil => simp
  | cons a l ih =>
    rcases h a with ha | ha
    · rw [List.filterMap_cons, ha]
      cases hg : g a with
      | none => rw [List.filterMap_cons, hg]; exact ih
      | some b => rw [List.filterMap_cons, hg]; exact ih.cons b
    · rw [List.filterMap_cons, List.filterMap_cons, ha]
      cases hg : g a with
      | none => exact ih
      | some b => exact ih.cons₂ b

lemma lineEntry_none_or_parseLSLine (line : List Char) :
    lineEntry line = none ∨ lineEntry line = parseLSLine line := by
  unfold lineEntry
  by_cases ht : (splitFields line).headD "" = "total"
  · left; rw [if_pos ht]
  · rw [if_neg ht]
    cases hp : parseLSLine line with
    | none => left; rfl
    | some f =>
      by_cases hd : f.Name = "." ∨ f.Name = ".."
      · left; simp [hd]
      · right; simp [hd]

lemma parseLS_sublist (text : List Char) :
    (parseLS text).Sublist ((splitLines text).filterMap parseLSLine) :=
  filterMap_sublist_of_forall _ _ _ lineEntry_none_or_parseLSLine

lemma lineEntry_some_name (line : List Char) (f : RemoteFile)
    (h : lineEntry line = some f) : f.Name ≠ "." ∧ f.Name ≠ ".." := by
  unfold lineEntry at h
  by_cases ht : (splitFields line).headD "" = "total"
  · rw [if_pos ht] at h
    exact absurd h (by simp)
  · rw [if_neg ht] at h
    cases hp : parseLSLine line with
    | none => rw [hp] at h; exact absurd h (by simp)
    | some g =>
      rw [hp] at h
      by_cases hd : g.Name = "." ∨ g.Name = ".."
      · simp [hd] at h
      · simp only [hd, if_false, Option.some_inj] at h
        subst h
        exact ⟨fun hx => hd (Or.inl hx), fun hx => hd (Or.inr hx)⟩

lemma parseLS_mem_name (text : List Char) (f : RemoteFile)
    (h : f ∈ parseLS text) : f.Name ≠ "." ∧ f.Name ≠ ".." := by
  unfold parseLS at h
  obtain ⟨line, _, hline⟩ := List.mem_filterMap.mp h
  exact lineEntry_some_name line f hline

lemma AppendOutput_suffix (buf data whole : List Nat) (h : buf <:+ whole) :
    AppendOutput buf data <:+ whole ++ data := by
  have h1 : buf ++ data <:+ whole ++ data := by
    obtain ⟨s, rfl⟩ := h
    exact ⟨s, (List.append_assoc s buf data).symm⟩
  unfold AppendOutput
  split
  · exact (List.drop_suffix _ _).trans h1
  · exact h1

lemma AppendOutput_length_le (buf data : List Nat) :
    (AppendOutput buf data).length ≤ 102400 := by
  unfold AppendOutput
  split <;> rename_i h
  · simp only [List.length_drop]; omega
  · omega

lemma AppendOutput_trim (buf data : List Nat)
    (h : 102400 < (buf ++ data).length) :
    AppendOutput buf data = (buf ++ data).drop ((buf ++ data).length - 51200) ∧
    (AppendOutput buf data).length = 51200 := by
  have he : AppendOutput buf data =
      (buf ++ data).drop ((buf ++ data).length - 51200) := by
    unfold AppendOutput
    rw [if_pos (by omega)]
  refine ⟨he, ?_⟩
  rw [he]
  simp only [List.length_drop]
  omega

lemma foldl_AppendOutput_suffix (calls : List (List Nat)) (buf whole : List Nat)
    (h : buf <:+ whole) :
    calls.foldl AppendOutput buf <:+ whole ++ calls.flatten := by
  induction calls generalizing buf whole with
  | nil => simpa using h
  | cons d cs ih =>
    have hstep := AppendOutput_suffix buf d whole h
    have := ih (AppendOutput buf d) (whole ++ d) hstep
    simpa [List.append_assoc] using this

lemma runAppendOutput_suffix (calls : List (List Nat)) :
    runAppendOutput calls <:+ calls.flatten := by
  have := foldl_AppendOutput_suffix calls [] [] List.nil_suffix
  simpa [runAppendOutput] using this

lemma runAppendOutput_length_le (calls : List (List Nat)) :
    (runAppendOutput calls).length ≤ 102400 := by
  unfold runAppendOutput
  have hgen : ∀ (cs : List (List Nat)) (buf : List Nat),
      buf.length ≤ 102400 → (cs.foldl AppendOutput buf).length ≤ 102400 := by
    intro cs
    induction cs with
    | nil => intro buf h; simpa using h
    | cons d cs ih =>
      intro buf _
      exact ih (AppendOutput buf d) (AppendOutput_length_le buf d)
  exact hgen calls [] (by simp)

/-- C1: `shellQuote` wraps any input in single quotes with every literal
single quote replaced by the four-character sequence
close-quote/backslash/quote/open-quote; the empty input yields two single
quotes, and interpreting the result under POSIX shell single-word quoting
rules yields exactly the input back (round-trip), for every string. -/
theorem shellQuote_claim :
    shellQuote [] = ['\'', '\''] ∧
    (∀ s : List Char, shellQuote s = ['\''] ++ s.flatMap escQuote ++ ['\'']) ∧
    shellQuote ['i', 't', '\'', 's'] =
      ['\'', 'i', 't', '\'', '\\', '\'', '\'', 's', '\''] ∧
    ∀ s : List Char, posixUnquote (shellQuote s) = some s :=
  ⟨rfl, fun _ => rfl, by decide, posixUnquote_shellQuote⟩

/-- C2: `parseLS` keeps the per-line parse results in input line order (it is
a sublist of the raw per-line parses, so no reordering), lines whose first
token is "total" contribute nothing, no retained entry is named "." or "..",
and malformed lines are silently skipped; the repository's listing test
vectors evaluate as the tests require. -/
theorem parseLS_claim :
    (∀ text : List Char,
        (parseLS text).Sublist ((splitLines text).filterMap parseLSLine)) ∧
    (∀ (text : List Char) (f : RemoteFile), f ∈ parseLS text →
        f.Name ≠ "." ∧ f.Name ≠ "..") ∧
    (∀ line : List Char, (splitFields line).headD "" = "total" →
        lineEntry line = none) ∧
    parseLS basicListing.data =
      [⟨"file1.txt", 1024, 420, false⟩, ⟨"file2.txt", 2048, 420, false⟩,
       ⟨"subdir", 4096, 493, true⟩] ∧
    parseLS ("total 0\n".data) = [] ∧
    parseLS dotListing.data = [] ∧
    parseLS [] = [] := by
  refine ⟨parseLS_sublist, parseLS_mem_name, ?_, by decide, by decide, by decide, rfl⟩
  intro line h
  unfold lineEntry
  rw [if_pos h]

/-- C2 witness: the claim applied to the basic listing text and the retained
entry `file1.txt`, and to a "total" summary line. -/
theorem parseLS_claim_witness :
    ((⟨"file1.txt", 1024, 420, false⟩ : RemoteFile) ∈ parseLS basicListing.data ∧
      (RemoteFile.Name ⟨"file1.txt", 1024, 420, false⟩ ≠ "." ∧
       RemoteFile.Name ⟨"file1.txt", 1024, 420, false⟩ ≠ "..")) ∧
    ((splitFields "total 0".data).headD "" = "total" ∧
      lineEntry "total 0".data = none) :=
  ⟨⟨by decide, parseLS_claim.2.1 basicListing.data _ (by decide)⟩,
   ⟨by decide, parseLS_claim.2.2.1 "total 0".data (by decide)⟩⟩

/-- C3: `parseLSLine` yields nothing on a line with fewer than five
whitespace-separated fields; otherwise the entry's name is the final field
and its size comes from field index 4 only when at least eight fields are
present (0 otherwise, and 0 on parse failure); the repository's line test
vectors evaluate as the tests require, a five-field line parsing with
size 0. -/
theorem parseLSLine_claim :
    (∀ line : List Char, (splitFields line).length < 5 →
        parseLSLine line = none) ∧
    (∀ (line : List Char) (f : RemoteFile), parseLSLine line = some f →
        f.Name = (splitFields line).getLastD "" ∧
        f.Size = (if 8 ≤ (splitFields line).length
                  then parseSize ((splitFields line).getD 4 "") else 0)) ∧
    parseLSLine "-rw-r--r-- 1 user group 12345 2024-01-15 10:30:00 myfile.txt".data
      = some ⟨"myfile.txt", 12345, 420, false⟩ ∧
    parseLSLine "drwxr-xr-x 2 user group 4096 2024-01-15 10:30:00 mydir".data
      = some ⟨"mydir", 4096, 493, true⟩ ∧
    parseLSLine "-rw-r--r-- 1 user group readme.txt".data
      = some ⟨"readme.txt", 0, 420, false⟩ ∧
    parseLSLine "abc".data = none ∧
    parseLSLine [] = none :=
  ⟨parseLSLine_short,
   fun line f h =>
     ⟨(parseLSLine_some line f h).1, (parseLSLine_some line f h).2.2⟩,
   by decide, by decide, by decide, by decide, rfl⟩

/-- C3 witness: the claim applied to the short line "abc" and to the
five-field line of the tests. -/
theorem parseLSLine_claim_witness :
    ((splitFields "abc".data).length < 5 ∧ parseLSLine "abc".data = none) ∧
    (parseLSLine "-rw-r--r-- 1 user group readme.txt".data
        = some ⟨"readme.txt", 0, 420, false⟩ ∧
      RemoteFile.Name ⟨"readme.txt", 0, 420, false⟩ =
        (splitFields "-rw-r--r-- 1 user group readme.txt".data).getLastD "") :=
  ⟨⟨by decide, parseLSLine_claim.1 "abc".data (by decide)⟩,
   ⟨by decide,
    (parseLSLine_claim.2.1 "-rw-r--r-- 1 user group readme.txt".data _
      (by decide)).1⟩⟩

/-- C4: `parsePerm` yields 0 on permission strings shorter than ten
characters, always stays within 0–0777, and on the repository's test vectors
yields 0777, 0444, 0755, 0666, 0600, and 0 respectively. -/
theorem parsePerm_claim :
    (∀ p : List Char, p.length < 10 → parsePerm p = 0) ∧
    (∀ p : List Char, parsePerm p ≤ 511) ∧
    parsePerm "-rwxrwxrwx".data = 511 ∧
    parsePerm "-r--r--r--".data = 292 ∧
    parsePerm "drwxr-xr-x".data = 493 ∧
    parsePerm "-rw-rw-rw-".data = 438 ∧
    parsePerm "-rw-------".data = 384 ∧
    parsePerm "short".data = 0 ∧
    parsePerm [] = 0 :=
  ⟨parsePerm_short, parsePerm_le, by decide, by decide, by decide, by decide,
   by decide, by decide, rfl⟩

/-- C4 witness: the short-string clause applied to "short". -/
theorem parsePerm_claim_witness :
    ("short".data).length < 10 ∧ parsePerm "short".data = 0 :=
  ⟨by decide, parsePerm_claim.1 "short".data (by decide)⟩

/-- C5: `parseAlgorithms` splits on commas, trims surrounding whitespace,
drops empty entries, preserves duplicates and order; the empty string yields
the empty result; a leading plus sign yields the fixed built-in default list
(first element ssh-ed25519) followed by the remaining names in order, the
last element being the last appended name. -/
theorem parseAlgorithms_claim :
    parseAlgorithms [] = [] ∧
    parseAlgorithms "ssh-ed25519,rsa-sha2-256".data =
      ["ssh-ed25519", "rsa-sha2-256"] ∧
    parseAlgorithms "  a , b  ".data = ["a", "b"] ∧
    parseAlgorithms "a,,b".data = ["a", "b"] ∧
    parseAlgorithms "a,b,a".data = ["a", "b", "a"] ∧
    (∀ rest : List Char,
        parseAlgorithms ('+' :: rest) = defaultAlgorithms ++ parseAlgList rest) ∧
    defaultAlgorithms.headD "" = "ssh-ed25519" ∧
    (parseAlgorithms "+ssh-rsa".data).headD "" = "ssh-ed25519" ∧
    (parseAlgorithms "+ssh-rsa".data).getLastD "" = "ssh-rsa" :=
  ⟨rfl, by decide, by decide, by decide, by decide,
   fun rest => by simp [parseAlgorithms], by decide, by decide, by decide⟩

/-- C6: after any sequence of `AppendOutput` calls the buffer is a contiguous
suffix of the concatenation of everything appended (no reordering, no
mid-stream drops), its length never exceeds 100 KiB, and any single append
that pushes past 100 KiB trims the buffer to exactly the most recent
50 KiB. -/
theorem appendOutput_claim :
    (∀ calls : List (List Nat), runAppendOutput calls <:+ calls.flatten) ∧
    (∀ calls : List (List Nat), (runAppendOutput calls).length ≤ 102400) ∧
    (∀ buf data : List Nat, 102400 < (buf ++ data).length →
        AppendOutput buf data =
          (buf ++ data).drop ((buf ++ data).length - 51200) ∧
        (AppendOutput buf data).length = 51200) :=
  ⟨runAppendOutput_suffix, runAppendOutput_length_le, AppendOutput_trim⟩

/-- C6 witness: the trim clause applied to an empty buffer receiving one
append of 102401 bytes. -/
theorem appendOutput_claim_witness :
    102400 < (([] : List Nat) ++ List.replicate 102401 0).length ∧
    (AppendOutput [] (List.replicate 102401 0)).length = 51200 :=
  ⟨by simp only [List.nil_append, List.length_replicate]; omega,
   (appendOutput_claim.2.2 [] (List.replicate 102401 0)
     (by simp only [List.nil_append, List.length_replicate]; omega)).2⟩

/-- C7: `Close` always attempts the direct connection and, exactly when a
relay connection is owned, the relay connection too — regardless of whether
the direct close fails — and the combined error collects both failures when
both fail; with no relay owned only the direct connection is closed and the
relay path contributes no error. -/
theorem clientClose_claim :
    (∀ e1 e2 : String,
        clientClose (some e1) (some (some e2)) =
          ([CloseTarget.direct, CloseTarget.relay], [e1, e2])) ∧
    (∀ (d : Option String) (r : Option (Option String)),
        CloseTarget.direct ∈ (clientClose d r).1) ∧
    (∀ (d : Option String) (r : Option (Option String)),
        CloseTarget.relay ∈ (clientClose d r).1 ↔ r.isSome = true) ∧
    (∀ d : Option String, clientClose d none = ([CloseTarget.direct], d.toList)) ∧
    (∀ e1 : String, clientClose (some e1) (some none) =
        ([CloseTarget.direct, CloseTarget.relay], [e1])) :=
  ⟨fun _ _ => rfl,
   fun d r => by cases r <;> simp [clientClose],
   fun d r => by cases r <;> simp [clientClose],
   fun d => by cases d <;> rfl,
   fun _ => rfl⟩

/-- C8: whenever a session was opened, any failing later setup step
(stdin-pipe creation or terminal start) closes the just-opened session and
leaves forwarding stopped (not Active); the returned error is absent exactly
when every step succeeds, and then the session, stdin pipe, and output
forwarding are in place. -/
theorem startSession_claim :
    ∀ (env : StartEnv) (s : Nat), env.newSession = Except.ok s →
      ((StartSession env).err ≠ none →
          (StartSession env).sessionClosed = true ∧
          (StartSession env).forwarding = false) ∧
      ((StartSession env).err = none →
          (StartSession env).sessionClosed = false ∧
          (StartSession env).sessionField = some s ∧
          (∃ p : Nat, env.stdinPipe = Except.ok p ∧
              (StartSession env).stdinField = some p) ∧
          (StartSession env).forwarding = true) ∧
      ((StartSession env).err = none ↔
          (∃ p : Nat, env.stdinPipe = Except.ok p) ∧
          env.startTerminal = none) := by
  rintro ⟨ns, sp, st⟩ s h
  simp only at h
  subst h
  cases sp <;> cases st <;> simp [StartSession]

/-- C8 witness: the claim applied to a run whose terminal start fails after
the session and stdin pipe were created. -/
theorem startSession_claim_witness :
    (StartSession ⟨Except.ok 1, Except.ok 2, some "boom"⟩).sessionClosed = true ∧
    (StartSession ⟨Except.ok 1, Except.ok 2, some "boom"⟩).forwarding = false :=
  (startSession_claim ⟨Except.ok 1, Except.ok 2, some "boom"⟩ 1 rfl).1 (by decide)

/-- C9: on a visible dialog, Enter hides the dialog and emits exactly one
response carrying the typed text with the cancelled flag false, while Esc
hides the dialog and emits exactly one cancelled response; typing "secret"
into a freshly shown dialog and pressing Enter yields exactly the response
"secret". -/
theorem passwordDialog_claim :
    (∀ m : PasswordDialogModel, m.visible = true →
        ((dialogUpdate m KeyMsg.enter).1.visible = false ∧
         (dialogUpdate m KeyMsg.enter).2 = some ⟨m.inputValue, false⟩) ∧
        ((dialogUpdate m KeyMsg.esc).1.visible = false ∧
         (dialogUpdate m KeyMsg.esc).2 = some ⟨"", true⟩)) ∧
    (dialogUpdate
        (dialogUpdate (dialogShow NewPasswordDialogModel "pw")
          (KeyMsg.runes "secret")).1 KeyMsg.enter).2 =
      some ⟨"secret", false⟩ ∧
    (dialogUpdate (dialogShow NewPasswordDialogModel "pw") KeyMsg.esc).2 =
      some ⟨"", true⟩ :=
  ⟨fun _ _ => ⟨⟨rfl, rfl⟩, ⟨rfl, rfl⟩⟩, by decide, by decide⟩

/-- C9 witness: the claim applied to a freshly shown (visible) dialog. -/
theorem passwordDialog_claim_witness :
    (dialogShow NewPasswordDialogModel "pw").visible = true ∧
    (dialogUpdate (dialogShow NewPasswordDialogModel "pw")
        KeyMsg.enter).1.visible = false :=
  ⟨rfl, ((passwordDialog_claim.1 (dialogShow NewPasswordDialogModel "pw") rfl).1).1⟩

/-- C10: with no stdin pipe established, `Write` is a silent no-op for any
data: it returns no error and issues no write to the remote session. -/
theorem write_claim :
    ∀ (writeErr : Option String) (data : List Nat),
      Write none writeErr data = (none, []) :=
  fun _ _ => rfl

end SshScp
